import Mathlib

/-!
Shallow embedding of the MCP↔LLM bridge (mcp_llm_bridge), covering
`bridge.py` (tool-name sanitization, tool-catalog conversion, tool-call
handling, the message-processing loop) and `llm_client.py` (response
normalization, conversation-history maintenance).

Modelling conventions:
* Python strings are Lean `String`s (`String` in this toolchain is a
  structure over `List Char`); `str.replace` with a one-character pattern
  is a character map, and `str.lower` acts per character (ASCII case
  mapping, `Char.toLower`).
* A Python attribute that may be missing is an `Option` field (`none` =
  `hasattr` is false); a value that may be `None` is likewise an `Option`.
* The bridge's `tool_name_mapping` dict is modelled by its lookup
  function; `d[k] = v` is pointwise update (later writes win) and
  `d.get(k)` is application.
* Fallible external calls (`json.loads`, `MCPClient.call_tool`, the
  chat-completions endpoint) are oracles supplied as parameters; a raised
  exception is `Except.error m` with `m` the exception's `str()`.
* The tool provider may be stateful: `call_tool` threads a provider state
  `PState`, so the sequential dispatch order of the Python `for` loop is
  observable in the model.
-/

namespace MCPBridge

/-- One step of Python `str.replace(old, new)` when `old` is a single
character: substitute `new` for every occurrence of `old`. -/
def pyReplaceChar (old new : Char) (s : String) : String :=
  String.mk (s.data.map (fun c => if c = old then new else c))

/-- Python `str.lower()` (per-character ASCII case mapping). -/
def pyLower (s : String) : String :=
  String.mk (s.data.map Char.toLower)

/-- `MCPLLMBridge._sanitize_tool_name` (bridge.py:122-125):
`name.replace("-", "_").replace(" ", "_").lower()`. -/
def sanitize_tool_name (name : String) : String :=
  pyLower (pyReplaceChar ' ' '_' (pyReplaceChar '-' '_' name))

/-- JSON values, used for tool input schemas. -/
inductive Json where
  | obj : List (String × Json) → Json
  | arr : List Json → Json
  | str : String → Json
  | num : Int → Json
  | bool : Bool → Json
  | null : Json

/-- The default empty-object schema substituted when a tool has no
`inputSchema` attribute (bridge.py:99-103). -/
def defaultSchema : Json :=
  Json.obj [("type", Json.str "object"),
            ("properties", Json.obj []),
            ("required", Json.arr [])]

/-- An MCP tool descriptor as the bridge probes it: `name`, `description`
and `inputSchema` are attributes that may be absent (`hasattr` /
`getattr` with default). -/
structure MCPTool where
  name : Option String
  description : Option String
  inputSchema : Option Json

/-- The `function` part of an OpenAI tool entry (bridge.py:107-111). -/
structure OpenAIFunction where
  name : String
  description : String
  parameters : Json

/-- An OpenAI-format tool entry `{type, function}` (bridge.py:105-112). -/
structure OpenAITool where
  type : String
  function : OpenAIFunction

/-- `tool_name_mapping`: a string-keyed dict modelled by its lookup
function (sanitized OpenAI name → original MCP name). -/
def NameMapping : Type := String → Option String

/-- The empty dict (`self.tool_name_mapping = {}`, bridge.py:41). -/
def emptyMapping : NameMapping := fun _ => none

/-- Dict update `d[k] = v`: later writes win. -/
def mapInsert (m : NameMapping) (k v : String) : NameMapping :=
  fun q => if q = k then some v else m q

/-- The catalog entry emitted for one tool when it has both a name and a
description (bridge.py:94-113); `none` when the tool is skipped. -/
def catalogEntry (tool : MCPTool) : Option OpenAITool :=
  match tool.name, tool.description with
  | some n, some d =>
    some { type := "function"
         , function := { name := sanitize_tool_name n
                       , description := d
                       , parameters := tool.inputSchema.getD defaultSchema } }
  | _, _ => none

/-- `MCPLLMBridge._convert_mcp_tools_to_openai_format` (bridge.py:68-120)
on the tool-descriptor list (the list path of the shape dispatch at
lines 76-90; `initialize` at lines 51-54 already extracts the list).
The `for` loop appending to `openai_tools` in order becomes structural
recursion; each accepted tool first writes
`tool_name_mapping[openai_name] = tool.name` and then emits its catalog
entry. Returns the emitted OpenAI catalog and the updated
`tool_name_mapping` (the method mutates `self.tool_name_mapping`, taken
here as the `mapping` argument). Total: skipped tools are excluded, never
an error. -/
def convert_mcp_tools_to_openai_format :
    List MCPTool → NameMapping → List OpenAITool × NameMapping
  | [], mapping => ([], mapping)
  | tool :: rest, mapping =>
    match tool.name, tool.description with
    | some n, some d =>
      let openai_name := sanitize_tool_name n
      let m := mapInsert mapping openai_name n
      let tool_schema := tool.inputSchema.getD defaultSchema
      let tail := convert_mcp_tools_to_openai_format rest m
      ({ type := "function"
       , function := { name := openai_name
                     , description := d
                     , parameters := tool_schema } } :: tail.1, tail.2)
    | _, _ => convert_mcp_tools_to_openai_format rest mapping

/-- Last-wins resolution of a sanitized key `k` among the accepted tools
of a descriptor list: the provider name that
`_convert_mcp_tools_to_openai_format` leaves in the mapping under `k`
(later accepted tools overwrite earlier ones). -/
def resolveIn : List MCPTool → String → Option String
  | [], _ => none
  | tool :: rest, k =>
    match resolveIn rest k with
    | some v => some v
    | none =>
      match tool.name with
      | some n =>
        if tool.description.isSome ∧ sanitize_tool_name n = k then some n else none
      | none => none

/-- One structured content block of an MCP `CallToolResult`; `text` is
`none` when the block has no `text` attribute (bridge.py:180-183). -/
structure ContentBlock where
  text : Option String

/-- A provider tool-execution result as the bridge's shape dispatch sees
it (bridge.py:176-185): a plain string; an object whose `content`
attribute is a list of blocks; or anything else, carried as its `str()`
rendering. -/
inductive MCPResult where
  | str : String → MCPResult
  | content : List ContentBlock → MCPResult
  | other : String → MCPResult

/-- The result-normalization step of `_handle_tool_calls`
(bridge.py:176-185): a plain string verbatim; a content list joined by
`" ".join(c.text for c in result.content if hasattr(c, "text"))`;
otherwise `str(result)`. -/
def formatOutput : MCPResult → String
  | .str s => s
  | .content blocks => String.intercalate " " (blocks.filterMap (fun b => b.text))
  | .other r => r

/-- The `function` part of a model-issued tool call: target name and raw
JSON arguments string. -/
structure ToolCallFunction where
  name : String
  arguments : String

/-- A model-issued tool call `{id, function}`. -/
structure ToolCall where
  id : String
  function : ToolCallFunction

/-- One entry of `tool_responses`: `{"tool_call_id": ..., "output": ...}`
(bridge.py:190-193). -/
structure ToolResponse where
  tool_call_id : String
  output : String

/-- The bridge's fallible external collaborators. `Args` is the type of
parsed JSON argument structures; `PState` is the provider's internal
state, threaded through `call_tool` so sequential dispatch is
observable. An `Except.error m` models a raised exception with message
`m`. -/
structure ToolEnv (Args PState : Type) where
  jsonLoads : String → Except String Args
  callTool : PState → String → Args → PState × Except String MCPResult

variable {Args PState : Type}

/-- The body of the per-call `try` block of `_handle_tool_calls`
(bridge.py:157-200) for a single tool call: resolve the name (a falsy
lookup — missing key or empty string — raises
`ValueError(f"Unknown tool: {openai_name}")`), parse the arguments,
dispatch to the provider, normalize the result; any raised exception `e`
is caught and yields `{"tool_call_id": ..., "output": f"Error: {str(e)}"}`. -/
def handleToolCall (env : ToolEnv Args PState) (mapping : NameMapping)
    (pst : PState) (tc : ToolCall) : PState × ToolResponse :=
  let step : PState × Except String String :=
    match mapping tc.function.name with
    | none => (pst, .error ("Unknown tool: " ++ tc.function.name))
    | some mcp_name =>
      if mcp_name = "" then (pst, .error ("Unknown tool: " ++ tc.function.name))
      else
        match env.jsonLoads tc.function.arguments with
        | .error m => (pst, .error m)
        | .ok args =>
          match env.callTool pst mcp_name args with
          | (pst', .error m) => (pst', .error m)
          | (pst', .ok result) => (pst', .ok (formatOutput result))
  match step with
  | (pst', .ok out) => (pst', { tool_call_id := tc.id, output := out })
  | (pst', .error m) => (pst', { tool_call_id := tc.id, output := "Error: " ++ m })

/-- `MCPLLMBridge._handle_tool_calls` (bridge.py:153-202): the `for` loop
over the batch, appending one response per call, each call independently
wrapped in `try`/`except`. -/
def handle_tool_calls (env : ToolEnv Args PState) (mapping : NameMapping) :
    PState → List ToolCall → PState × List ToolResponse
  | pst, [] => (pst, [])
  | pst, tc :: rest =>
    let pr := handleToolCall env mapping pst tc
    let prs := handle_tool_calls env mapping pr.1 rest
    (prs.1, pr.2 :: prs.2)

/-- The raw message of a completion choice. `content` is `none` when the
message content is `None`; `tool_calls` is `none` when the message has no
`tool_calls` attribute, `some none` when the attribute is `None`, and
`some (some l)` when it is the list `l` (llm_client.py:38-39). -/
structure RawMessage where
  content : Option String
  tool_calls : Option (Option (List ToolCall))

/-- One choice of a chat completion: a message and a finish reason. -/
structure Choice where
  message : RawMessage
  finish_reason : String

/-- A raw chat completion: its list of choices. -/
structure Completion where
  choices : List Choice

/-- The normalized response built by `LLMResponse.__init__`
(llm_client.py:28-44). -/
structure LLMResponse where
  content : String
  tool_calls : Option (List ToolCall)
  stop_reason : String
  is_tool_call : Bool

/-- `LLMResponse.__init__` (llm_client.py:30-44): take the first choice
(`completion.choices[0]` raises `IndexError` when there is none, modelled
as the error message Python prints for it); `is_tool_call` compares the
finish reason with `"tool_calls"`; `content` defaults `None` to `""`;
`tool_calls` is the message's attribute value when present (possibly
`None`), else `None`. -/
def mkLLMResponse (completion : Completion) : Except String LLMResponse :=
  match completion.choices with
  | [] => .error "list index out of range"
  | choice :: _ =>
    .ok { stop_reason := choice.finish_reason
        , is_tool_call := choice.finish_reason == "tool_calls"
        , content := match choice.message.content with
                     | some c => c
                     | none => ""
        , tool_calls := match choice.message.tool_calls with
                        | some v => v
                        | none => none }

/-- One entry of the conversation history kept in `LLMClient.messages`. -/
structure Message where
  role : String
  content : String
  tool_calls : Option (List ToolCall)
  tool_call_id : Option String

/-- `LLMResponse.get_message` (llm_client.py:46-52): the assistant
message appended to the history after each completion. -/
def get_message (resp : LLMResponse) : Message :=
  { role := "assistant", content := resp.content
  , tool_calls := resp.tool_calls, tool_call_id := none }

/-- The tool-result loop at the top of `LLMClient.invoke`
(llm_client.py:91-97): when `tool_results` is non-empty (the Python
truthiness guard), append one `tool` message per result, keyed by its
`tool_call_id`. -/
def appendToolResults (messages : List Message) (tool_results : List ToolResponse) :
    List Message :=
  if tool_results.isEmpty then messages
  else messages ++ tool_results.map
    (fun r => { role := "tool", content := r.output
              , tool_calls := none, tool_call_id := some r.tool_call_id })

/-- `LLMClient.invoke` (llm_client.py:89-110): append the tool messages,
call the completions endpoint (the supplied `completion` oracle value;
`Except.error` models the call raising), normalize, and append the
assistant message. Returns the history as left behind (tool messages
stay appended even when the endpoint raises) together with the outcome. -/
def invoke (messages : List Message) (tool_results : List ToolResponse)
    (completion : Except String Completion) :
    List Message × Except String LLMResponse :=
  let messages' := appendToolResults messages tool_results
  match completion with
  | .error m => (messages', .error m)
  | .ok c =>
    match mkLLMResponse c with
    | .error m => (messages', .error m)
    | .ok resp => (messages' ++ [get_message resp], .ok resp)

/-- Python truthiness of the normalized `tool_calls` field: falsy when
`None` or the empty list (`if not response.tool_calls`, bridge.py:137). -/
def toolCallsFalsy : Option (List ToolCall) → Bool
  | none => true
  | some l => l.isEmpty

/-- The `while response.is_tool_call` loop of
`MCPLLMBridge.process_message` (bridge.py:136-148), driven by a finite
oracle trace of completion outcomes (one consumed per `invoke`).
Returns `some` of the returned string; `none` means the trace was
exhausted while the model kept issuing tool calls. The surrounding
`try`/`except` (bridge.py:129-151) turns an escaping exception `e` into
`f"Error processing message: {str(e)}"`. -/
def process_message_loop (env : ToolEnv Args PState) (mapping : NameMapping) :
    List (Except String Completion) → PState → List Message → LLMResponse →
    Option String
  | [], _, _, resp =>
    if resp.is_tool_call && !toolCallsFalsy resp.tool_calls then none
    else some resp.content
  | completion :: rest, pst, messages, resp =>
    if resp.is_tool_call then
      if toolCallsFalsy resp.tool_calls then some resp.content
      else
        let pr := handle_tool_calls env mapping pst (resp.tool_calls.getD [])
        let mr := invoke messages pr.2 completion
        match mr.2 with
        | .error m => some ("Error processing message: " ++ m)
        | .ok resp' => process_message_loop env mapping rest pr.1 mr.1 resp'
    else some resp.content

/-- `MCPLLMBridge.process_message` (bridge.py:127-151):
`invoke_with_prompt` appends the user message and invokes with no tool
results (llm_client.py:80-87), then the tool-call loop runs; the
top-level `except` converts any escaping exception into
`"Error processing message: <message>"`. The first oracle element is the
initial completion outcome; `none` again means the finite trace ran out
mid-loop. -/
def process_message (env : ToolEnv Args PState) (mapping : NameMapping)
    (oracle : List (Except String Completion)) (pst : PState)
    (messages : List Message) (message : String) : Option String :=
  match oracle with
  | [] => none
  | completion :: rest =>
    let messages' := messages ++
      [{ role := "user", content := message, tool_calls := none, tool_call_id := none }]
    let mr := invoke messages' [] completion
    match mr.2 with
    | .error m => some ("Error processing message: " ++ m)
    | .ok resp => process_message_loop env mapping rest pst mr.1 resp

/-! ### Character-level facts about ASCII lowering -/

theorem toLower_of_upper {c : Char} (h : 65 ≤ c.toNat ∧ c.toNat ≤ 90) :
    c.toLower = Char.ofNat (c.toNat + 32) := by
  simp [Char.toLower, h.1, h.2]

theorem toLower_of_not_upper {c : Char} (h : ¬(65 ≤ c.toNat ∧ c.toNat ≤ 90)) :
    c.toLower = c := by
  simp only [Char.toLower]
  split
  · rename_i hcond
    exact absurd ⟨hcond.1, hcond.2⟩ h
  · rfl

theorem toNat_ofNat_of_lt {n : Nat} (h : n < 55296) : (Char.ofNat n).toNat = n := by
  have hv : n.isValidChar := Or.inl h
  simp [Char.ofNat, hv, Char.ofNatAux, Char.toNat, UInt32.toNat]

theorem toNat_toLower_of_upper {c : Char} (h : 65 ≤ c.toNat ∧ c.toNat ≤ 90) :
    c.toLower.toNat = c.toNat + 32 := by
  rw [toLower_of_upper h]
  exact toNat_ofNat_of_lt (by omega)

theorem toLower_toLower (c : Char) : c.toLower.toLower = c.toLower := by
  by_cases h : 65 ≤ c.toNat ∧ c.toNat ≤ 90
  · have hn : c.toLower.toNat = c.toNat + 32 := toNat_toLower_of_upper h
    exact toLower_of_not_upper (by omega)
  · rw [toLower_of_not_upper h, toLower_of_not_upper h]

theorem toLower_ne_of_ne {c : Char} {d : Char} (hd : d.toNat < 65)
    (h : c ≠ d) : c.toLower ≠ d := by
  by_cases hu : 65 ≤ c.toNat ∧ c.toNat ≤ 90
  · intro he
    have hn : c.toLower.toNat = c.toNat + 32 := toNat_toLower_of_upper hu
    rw [he] at hn
    omega
  · rw [toLower_of_not_upper hu]
    exact h

/-! ### String-level facts about the sanitizer -/

theorem pyReplaceChar_eq_self {old new : Char} {s : String}
    (h : ∀ c ∈ s.data, c ≠ old) : pyReplaceChar old new s = s := by
  unfold pyReplaceChar
  have hmap : s.data.map (fun c => if c = old then new else c) = s.data := by
    rw [List.map_congr_left (g := id) (fun a ha => by simp [h a ha])]
    exact List.map_id s.data

  rw [hmap]

theorem pyLower_pyLower (s : String) : pyLower (pyLower s) = pyLower s := by
  unfold pyLower
  have : (s.data.map Char.toLower).map Char.toLower = s.data.map Char.toLower := by
    rw [List.map_map]
    exact List.map_congr_left (fun a _ => toLower_toLower a)
  exact congrArg String.mk this

theorem mem_sanitize_ne (x : String) :
    ∀ c ∈ (sanitize_tool_name x).data, c ≠ '-' ∧ c ≠ ' ' := by
  unfold sanitize_tool_name pyLower pyReplaceChar
  intro c hc
  simp only [List.map_map] at hc
  rcases List.mem_map.mp hc with ⟨a, _, rfl⟩
  simp only [Function.comp]
  have hne : (if (if a = '-' then '_' else a) = ' ' then '_'
      else (if a = '-' then '_' else a)) ≠ '-' ∧
      (if (if a = '-' then '_' else a) = ' ' then '_'
      else (if a = '-' then '_' else a)) ≠ ' ' := by
    by_cases h1 : a = '-' <;> by_cases h2 : a = ' ' <;> simp [h1, h2]
  exact ⟨toLower_ne_of_ne (by decide) hne.1, toLower_ne_of_ne (by decide) hne.2⟩

/-- C9: the name-sanitization function `_sanitize_tool_name` (lowercase;
replace spaces and hyphens with underscores) is deterministic — it is a
pure function of its argument — and idempotent: sanitizing an already
sanitized name changes nothing. -/
theorem C9_sanitize_idempotent (x : String) :
    sanitize_tool_name (sanitize_tool_name x) = sanitize_tool_name x := by
  show pyLower (pyReplaceChar ' ' '_' (pyReplaceChar '-' '_' (sanitize_tool_name x)))
      = sanitize_tool_name x
  rw [pyReplaceChar_eq_self (fun c hc => (mem_sanitize_ne x c hc).1),
      pyReplaceChar_eq_self (fun c hc => (mem_sanitize_ne x c hc).2)]
  show pyLower (pyLower (pyReplaceChar ' ' '_' (pyReplaceChar '-' '_' x)))
      = sanitize_tool_name x
  rw [pyLower_pyLower]
  rfl

/-! ### Characterization of the catalog conversion -/

theorem convert_fst (tools : List MCPTool) (mapping : NameMapping) :
    (convert_mcp_tools_to_openai_format tools mapping).1 = tools.filterMap catalogEntry := by
  induction tools generalizing mapping with
  | nil => rfl
  | cons tool rest ih =>
    rcases ht : tool.name with _ | n <;> rcases hd : tool.description with _ | d <;>
      simp [convert_mcp_tools_to_openai_format, catalogEntry, ht, hd, ih]

theorem convert_snd_get (tools : List MCPTool) (mapping : NameMapping) (k : String) :
    (convert_mcp_tools_to_openai_format tools mapping).2 k =
      match resolveIn tools k with
      | some v => some v
      | none => mapping k := by
  induction tools generalizing mapping with
  | nil => rfl
  | cons tool rest ih =>
    rcases ht : tool.name with _ | n <;> rcases hd : tool.description with _ | d <;>
      rcases hr : resolveIn rest k with _ | v
    · simp [convert_mcp_tools_to_openai_format, resolveIn, ht, hd, ih, hr]
    · simp [convert_mcp_tools_to_openai_format, resolveIn, ht, hd, ih, hr]
    · simp [convert_mcp_tools_to_openai_format, resolveIn, ht, hd, ih, hr]
    · simp [convert_mcp_tools_to_openai_format, resolveIn, ht, hd, ih, hr]
    · simp [convert_mcp_tools_to_openai_format, resolveIn, ht, hd, ih, hr]
    · simp [convert_mcp_tools_to_openai_format, resolveIn, ht, hd, ih, hr]
    · simp only [convert_mcp_tools_to_openai_format, ht, hd, ih, resolveIn, hr]
      by_cases hk : sanitize_tool_name n = k <;>
        simp [mapInsert, hk, eq_comm (a := k)]
    · simp [convert_mcp_tools_to_openai_format, resolveIn, ht, hd, ih, hr]

theorem resolveIn_mem {tools : List MCPTool} {k v : String}
    (h : resolveIn tools k = some v) :
    ∃ t ∈ tools, t.name = some v ∧ t.description.isSome = true ∧
      sanitize_tool_name v = k := by
  induction tools with
  | nil => exact absurd h (by simp [resolveIn])
  | cons tool rest ih =>
    rcases hr : resolveIn rest k with _ | w <;>
      rcases ht : tool.name with _ | n
    · simp [resolveIn, hr, ht] at h
    · simp only [resolveIn, hr, ht] at h
      by_cases hc : tool.description.isSome = true ∧ sanitize_tool_name n = k
      · rw [if_pos hc] at h
        obtain rfl : n = v := by injection h
        exact ⟨tool, List.mem_cons_self .., ht, hc.1, hc.2⟩
      · rw [if_neg hc] at h
        exact absurd h (by simp)
    · simp only [resolveIn, hr] at h
      obtain rfl : w = v := by injection h
      obtain ⟨t, hmem, h1, h2, h3⟩ := ih hr
      exact ⟨t, List.mem_cons_of_mem _ hmem, h1, h2, h3⟩
    · simp only [resolveIn, hr] at h
      obtain rfl : w = v := by injection h
      obtain ⟨t, hmem, h1, h2, h3⟩ := ih hr
      exact ⟨t, List.mem_cons_of_mem _ hmem, h1, h2, h3⟩

theorem resolveIn_isSome_of_mem {tools : List MCPTool} {t : MCPTool} {n k : String}
    (hmem : t ∈ tools) (hn : t.name = some n) (hd : t.description.isSome = true)
    (hs : sanitize_tool_name n = k) : (resolveIn tools k).isSome = true := by
  induction tools with
  | nil => exact absurd hmem (by simp)
  | cons tool rest ih =>
    rcases hr : resolveIn rest k with _ | w
    · rcases List.mem_cons.mp hmem with rfl | hmem'
      · simp only [resolveIn, hr, hn]
        rw [if_pos ⟨hd, hs⟩]
        rfl
      · have := ih hmem'
        rw [hr] at this
        exact absurd this (by simp)
    · simp [resolveIn, hr]

theorem sanitize_fetch_url : sanitize_tool_name "Fetch Url" = "fetch_url" := by
  decide

/-- C6: the catalog conversion emits exactly one entry
`{type: "function", function: {name: sanitizedName, description,
parameters}}` per tool carrying both a name and a description — in list
order, substituting the default `{type: object, properties: {},
required: []}` schema when `inputSchema` is absent — and descriptors
lacking a name or a description are excluded from the catalog and never
appear in the name mapping built from the empty mapping. The conversion
is a total function (it never raises). -/
theorem C6_catalog_conversion (tools : List MCPTool) (mapping : NameMapping) :
    (convert_mcp_tools_to_openai_format tools mapping).1 = tools.filterMap catalogEntry
    ∧ (∀ k v, (convert_mcp_tools_to_openai_format tools emptyMapping).2 k = some v →
        ∃ t ∈ tools, t.name = some v ∧ t.description.isSome = true ∧
          k = sanitize_tool_name v) := by
  refine ⟨convert_fst tools mapping, fun k v h => ?_⟩
  rw [convert_snd_get] at h
  rcases hr : resolveIn tools k with _ | w
  · rw [hr] at h
    exact absurd h (by simp [emptyMapping])
  · rw [hr] at h
    obtain rfl : w = v := by injection h
    obtain ⟨t, hmem, h1, h2, h3⟩ := resolveIn_mem hr
    exact ⟨t, hmem, h1, h2, h3.symm⟩

/-- Witness for C6 on a concrete descriptor list: one accepted tool
(no schema, so the default is substituted), one tool with no name and one
with no description, both skipped; the key `"fetch_url"` in the resulting
mapping traces back to the accepted tool. -/
theorem C6_catalog_conversion_witness :
    (convert_mcp_tools_to_openai_format
        [⟨some "Fetch Url", some "Fetches a url", none⟩,
         ⟨none, some "orphan description", none⟩,
         ⟨some "No Description", none, some (Json.str "s")⟩] emptyMapping).1 =
      [{ type := "function"
       , function := { name := "fetch_url"
                     , description := "Fetches a url"
                     , parameters := defaultSchema } }]
    ∧ ∃ t ∈ ([⟨some "Fetch Url", some "Fetches a url", none⟩,
              ⟨none, some "orphan description", none⟩,
              ⟨some "No Description", none, some (Json.str "s")⟩] : List MCPTool),
        t.name = some "Fetch Url" ∧ t.description.isSome = true ∧
          "fetch_url" = sanitize_tool_name "Fetch Url" := by
  have h := C6_catalog_conversion
    [⟨some "Fetch Url", some "Fetches a url", none⟩,
     ⟨none, some "orphan description", none⟩,
     ⟨some "No Description", none, some (Json.str "s")⟩] emptyMapping
  exact ⟨by rw [h.1]; rfl, h.2 "fetch_url" "Fetch Url" rfl⟩

/-- C1 counterexample: the claim quantifies over every tool list
containing an accepted tool named `"Fetch Url"`, but sanitization is not
injective — with a second accepted tool `"Fetch-Url"` later in the list,
the dict write `tool_name_mapping["fetch_url"] = tool.name` overwrites,
and resolving `"fetch_url"` yields `"Fetch-Url"`, not `"Fetch Url"`. -/
theorem C1_roundtrip_counterexample :
    (([⟨some "Fetch Url", some "d1", none⟩, ⟨some "Fetch-Url", some "d2", none⟩] :
        List MCPTool)[0]? = some ⟨some "Fetch Url", some "d1", none⟩)
    ∧ (convert_mcp_tools_to_openai_format
        [⟨some "Fetch Url", some "d1", none⟩, ⟨some "Fetch-Url", some "d2", none⟩]
        emptyMapping).2 "fetch_url" = some "Fetch-Url"
    ∧ (convert_mcp_tools_to_openai_format
        [⟨some "Fetch Url", some "d1", none⟩, ⟨some "Fetch-Url", some "d2", none⟩]
        emptyMapping).2 "fetch_url" ≠ some "Fetch Url" := by
  refine ⟨rfl, rfl, ?_⟩
  decide

/-- C1 (amended): for a tool list containing an accepted tool with
provider name `"Fetch Url"`, in which no other accepted tool's name also
sanitizes to `"fetch_url"`, the sanitized name is `"fetch_url"`, the
emitted catalog contains an entry under that model-facing name, and the
mapping built from the empty mapping resolves `"fetch_url"` back to
`"Fetch Url"`. -/
theorem C1_roundtrip_amended (tools : List MCPTool) (t : MCPTool)
    (hmem : t ∈ tools) (hname : t.name = some "Fetch Url")
    (hdesc : t.description.isSome = true)
    (huniq : ∀ u ∈ tools, ∀ n, u.name = some n → u.description.isSome = true →
      sanitize_tool_name n = "fetch_url" → n = "Fetch Url") :
    sanitize_tool_name "Fetch Url" = "fetch_url"
    ∧ (∃ e ∈ (convert_mcp_tools_to_openai_format tools emptyMapping).1,
        e.function.name = "fetch_url")
    ∧ (convert_mcp_tools_to_openai_format tools emptyMapping).2 "fetch_url" =
        some "Fetch Url" := by
  obtain ⟨d, hd⟩ := Option.isSome_iff_exists.mp hdesc
  refine ⟨sanitize_fetch_url, ?_, ?_⟩
  · rw [convert_fst]
    refine ⟨{ type := "function"
            , function := { name := sanitize_tool_name "Fetch Url"
                          , description := d
                          , parameters := t.inputSchema.getD defaultSchema } },
      List.mem_filterMap.mpr ⟨t, hmem, ?_⟩, sanitize_fetch_url⟩
    simp [catalogEntry, hname, hd]
  · rw [convert_snd_get]
    have hsome := resolveIn_isSome_of_mem hmem hname hdesc sanitize_fetch_url
    obtain ⟨v, hv⟩ := Option.isSome_iff_exists.mp hsome
    obtain ⟨u, humem, hu1, hu2, hu3⟩ := resolveIn_mem hv
    obtain rfl : v = "Fetch Url" := huniq u humem v hu1 hu2 hu3
    rw [hv]

/-- Witness for the amended C1 on the single-tool list containing only
the `"Fetch Url"` tool. -/
theorem C1_roundtrip_amended_witness :
    sanitize_tool_name "Fetch Url" = "fetch_url"
    ∧ (∃ e ∈ (convert_mcp_tools_to_openai_format
          [⟨some "Fetch Url", some "Fetches a url", none⟩] emptyMapping).1,
        e.function.name = "fetch_url")
    ∧ (convert_mcp_tools_to_openai_format
        [⟨some "Fetch Url", some "Fetches a url", none⟩] emptyMapping).2 "fetch_url" =
        some "Fetch Url" := by
  refine C1_roundtrip_amended _ ⟨some "Fetch Url", some "Fetches a url", none⟩
    (List.mem_singleton.mpr rfl) rfl rfl ?_
  intro u hu n hn _ _
  obtain rfl : u = MCPTool.mk (some "Fetch Url") (some "Fetches a url") none :=
    List.mem_singleton.mp hu
  injection hn with hn
  exact hn.symm

/-! ### Result normalization -/

theorem filterMap_text_eq (bs : List ContentBlock) :
    bs.filterMap (fun b => b.text) =
      (bs.filter (fun b => b.text.isSome)).map (fun b => b.text.getD "") := by
  induction bs with
  | nil => rfl
  | cons b rest ih => rcases hb : b.text with _ | t <;> simp [hb, ih]

theorem filterMap_text_of_all_some {bs : List ContentBlock}
    (h : ∀ b ∈ bs, b.text.isSome = true) :
    bs.filterMap (fun b => b.text) = bs.map (fun b => b.text.getD "") := by
  induction bs with
  | nil => rfl
  | cons b rest ih =>
    rcases hb : b.text with _ | t
    · exact absurd (h b (List.mem_cons_self ..)) (by simp [hb])
    · simp only [List.filterMap_cons, List.map_cons, hb, Option.getD_some]
      rw [ih (fun x hx => h x (List.mem_cons_of_mem _ hx))]

/-- C5: the invoker's normalization of a provider tool-execution result
(bridge.py:176-185): a plain string is used verbatim; a list of
structured content blocks that each expose a `text` field is joined into
the single-space-separated concatenation of those texts; anything else
becomes the string representation of the whole result. -/
theorem C5_result_normalization (r : MCPResult) :
    (∀ s, r = .str s → formatOutput r = s)
    ∧ (∀ bs, r = .content bs → (∀ b ∈ bs, b.text.isSome = true) →
        formatOutput r =
          String.intercalate " " (bs.map (fun b => b.text.getD "")))
    ∧ (∀ o, r = .other o → formatOutput r = o) := by
  refine ⟨fun s hs => by rw [hs]; rfl, fun bs hbs hall => ?_, fun o ho => by rw [ho]; rfl⟩
  rw [hbs]
  show String.intercalate " " (bs.filterMap fun b => b.text) = _
  rw [filterMap_text_of_all_some hall]

/-- Witness for C5 at one concrete result of each shape. -/
theorem C5_result_normalization_witness :
    formatOutput (.str "hello") = "hello"
    ∧ formatOutput (.content [⟨some "a"⟩, ⟨some "b"⟩]) = "a b"
    ∧ formatOutput (.other "CallToolResult(meta=None)") = "CallToolResult(meta=None)" := by
  refine ⟨(C5_result_normalization _).1 "hello" rfl, ?_,
    (C5_result_normalization _).2.2 "CallToolResult(meta=None)" rfl⟩
  have h := (C5_result_normalization (.content [⟨some "a"⟩, ⟨some "b"⟩])).2.1
    [⟨some "a"⟩, ⟨some "b"⟩] rfl (by decide)
  rw [h]
  rfl

/-- C10 (implicit): blocks lacking a `text` field are skipped, not
errors — the output is the single-space join of exactly the text-bearing
blocks, and a content list with no text-bearing block at all yields the
empty string; the normalization is a total function (nothing raises). -/
theorem C10_textless_blocks_skipped (bs : List ContentBlock) :
    formatOutput (.content bs) =
      String.intercalate " "
        ((bs.filter (fun b => b.text.isSome)).map (fun b => b.text.getD ""))
    ∧ ((∀ b ∈ bs, b.text = none) → formatOutput (.content bs) = "") := by
  constructor
  · show String.intercalate " " (bs.filterMap fun b => b.text) = _
    rw [filterMap_text_eq]
  · intro hall
    show String.intercalate " " (bs.filterMap fun b => b.text) = ""
    rw [List.filterMap_eq_nil_iff.mpr hall]
    rfl

/-- Witness for C10 on a concrete list of two textless blocks and one
text-bearing block, and on an all-textless list. -/
theorem C10_textless_blocks_skipped_witness :
    formatOutput (.content [⟨none⟩, ⟨some "only"⟩, ⟨none⟩]) =
      String.intercalate " "
        ((([⟨none⟩, ⟨some "only"⟩, ⟨none⟩] : List ContentBlock).filter
            (fun b => b.text.isSome)).map (fun b => b.text.getD ""))
    ∧ formatOutput (.content [⟨none⟩, ⟨none⟩]) = "" := by
  exact ⟨(C10_textless_blocks_skipped _).1,
    (C10_textless_blocks_skipped [⟨none⟩, ⟨none⟩]).2 (by decide)⟩

/-! ### Tool-call handling -/

theorem handleToolCall_id (env : ToolEnv Args PState) (mapping : NameMapping)
    (pst : PState) (tc : ToolCall) :
    (handleToolCall env mapping pst tc).2.tool_call_id = tc.id := by
  unfold handleToolCall
  dsimp only
  split <;> rfl

theorem handleToolCall_unknown (env : ToolEnv Args PState) (mapping : NameMapping)
    (pst : PState) (tc : ToolCall) (h : mapping tc.function.name = none) :
    handleToolCall env mapping pst tc =
      (pst, { tool_call_id := tc.id
            , output := "Error: " ++ ("Unknown tool: " ++ tc.function.name) }) := by
  unfold handleToolCall
  rw [h]

theorem handleToolCall_empty_name (env : ToolEnv Args PState) (mapping : NameMapping)
    (pst : PState) (tc : ToolCall) (h : mapping tc.function.name = some "") :
    handleToolCall env mapping pst tc =
      (pst, { tool_call_id := tc.id
            , output := "Error: " ++ ("Unknown tool: " ++ tc.function.name) }) := by
  unfold handleToolCall
  rw [h]
  rfl

theorem handleToolCall_parse_error (env : ToolEnv Args PState) (mapping : NameMapping)
    (pst : PState) (tc : ToolCall) {name m : String}
    (hm : mapping tc.function.name = some name) (hne : name ≠ "")
    (hj : env.jsonLoads tc.function.arguments = .error m) :
    handleToolCall env mapping pst tc =
      (pst, { tool_call_id := tc.id, output := "Error: " ++ m }) := by
  unfold handleToolCall
  rw [hm]
  dsimp only
  rw [if_neg hne, hj]

theorem handleToolCall_provider_error (env : ToolEnv Args PState)
    (mapping : NameMapping) (pst pst' : PState) (tc : ToolCall)
    {name m : String} {args : Args}
    (hm : mapping tc.function.name = some name) (hne : name ≠ "")
    (hj : env.jsonLoads tc.function.arguments = .ok args)
    (hc : env.callTool pst name args = (pst', .error m)) :
    handleToolCall env mapping pst tc =
      (pst', { tool_call_id := tc.id, output := "Error: " ++ m }) := by
  unfold handleToolCall
  rw [hm]
  dsimp only
  rw [if_neg hne, hj]
  dsimp only
  rw [hc]

theorem handleToolCall_ok (env : ToolEnv Args PState)
    (mapping : NameMapping) (pst pst' : PState) (tc : ToolCall)
    {name : String} {args : Args} {result : MCPResult}
    (hm : mapping tc.function.name = some name) (hne : name ≠ "")
    (hj : env.jsonLoads tc.function.arguments = .ok args)
    (hc : env.callTool pst name args = (pst', .ok result)) :
    handleToolCall env mapping pst tc =
      (pst', { tool_call_id := tc.id, output := formatOutput result }) := by
  unfold handleToolCall
  rw [hm]
  dsimp only
  rw [if_neg hne, hj]
  dsimp only
  rw [hc]

theorem handle_length (env : ToolEnv Args PState) (mapping : NameMapping) :
    ∀ (calls : List ToolCall) (pst : PState),
    ((handle_tool_calls env mapping pst calls).2).length = calls.length := by
  intro calls
  induction calls with
  | nil => intro pst; rfl
  | cons tc rest ih => intro pst; simp [handle_tool_calls, ih]

theorem handle_ids (env : ToolEnv Args PState) (mapping : NameMapping) :
    ∀ (calls : List ToolCall) (pst : PState) (i : Nat),
    (((handle_tool_calls env mapping pst calls).2)[i]?).map (fun r => r.tool_call_id) =
      (calls[i]?).map (fun c => c.id) := by
  intro calls
  induction calls with
  | nil => intro pst i; rfl
  | cons tc rest ih =>
    intro pst i
    match i with
    | 0 => simp [handle_tool_calls, handleToolCall_id]
    | i + 1 => simp [handle_tool_calls, ih]

theorem handle_unknown_at (env : ToolEnv Args PState) (mapping : NameMapping) :
    ∀ (calls : List ToolCall) (pst : PState) (i : Nat) (tc : ToolCall),
    calls[i]? = some tc → mapping tc.function.name = none →
    ((handle_tool_calls env mapping pst calls).2)[i]? =
      some { tool_call_id := tc.id
           , output := "Error: " ++ ("Unknown tool: " ++ tc.function.name) } := by
  intro calls
  induction calls with
  | nil => intro pst i tc hi _; simp at hi
  | cons hd rest ih =>
    intro pst i tc hi hm
    match i with
    | 0 =>
      obtain rfl : hd = tc := by simpa using hi
      simp [handle_tool_calls, handleToolCall_unknown env mapping pst hd hm]
    | i + 1 =>
      simp only [List.getElem?_cons_succ] at hi
      simp [handle_tool_calls, ih _ _ _ hi hm]

/-- C3: a tool call whose model-facing name is absent from the name
mapping does not raise past the invoker and does not abort the batch:
every call still yields exactly one result, and the unresolved call's
result has the originating id and an output embedding both the literal
text `"Unknown tool"` and the unresolved name. -/
theorem C3_unknown_tool (env : ToolEnv Args PState) (mapping : NameMapping)
    (pst : PState) (calls : List ToolCall) (i : Nat) (tc : ToolCall)
    (hi : calls[i]? = some tc) (hm : mapping tc.function.name = none) :
    ((handle_tool_calls env mapping pst calls).2).length = calls.length
    ∧ ∃ r, ((handle_tool_calls env mapping pst calls).2)[i]? = some r
        ∧ r.tool_call_id = tc.id
        ∧ List.IsInfix "Unknown tool".data r.output.data
        ∧ List.IsInfix tc.function.name.data r.output.data := by
  refine ⟨handle_length env mapping calls pst,
    ⟨_, handle_unknown_at env mapping calls pst i tc hi hm, rfl, ?_, ?_⟩⟩
  · exact ⟨"Error: ".data, (": " ++ tc.function.name).data, by simp [String.data_append]⟩
  · exact ⟨"Error: Unknown tool: ".data, [], by simp [String.data_append]⟩

/-- Witness for C3: a two-call batch whose second call targets a name
missing from the mapping. -/
theorem C3_unknown_tool_witness :
    ((handle_tool_calls
        { jsonLoads := fun s => Except.ok s
        , callTool := fun (n : Nat) _ _ => (n + 1, Except.ok (MCPResult.str "ok")) }
        (mapInsert emptyMapping "known_tool" "Known Tool") 0
        [⟨"id1", ⟨"known_tool", "{}"⟩⟩, ⟨"id2", ⟨"mystery_tool", "{}"⟩⟩]).2).length = 2
    ∧ ∃ r, ((handle_tool_calls
        { jsonLoads := fun s => Except.ok s
        , callTool := fun (n : Nat) _ _ => (n + 1, Except.ok (MCPResult.str "ok")) }
        (mapInsert emptyMapping "known_tool" "Known Tool") 0
        [⟨"id1", ⟨"known_tool", "{}"⟩⟩, ⟨"id2", ⟨"mystery_tool", "{}"⟩⟩]).2)[1]? = some r
        ∧ r.tool_call_id = "id2"
        ∧ List.IsInfix "Unknown tool".data r.output.data
        ∧ List.IsInfix "mystery_tool".data r.output.data := by
  exact C3_unknown_tool _ _ _ _ 1 ⟨"id2", ⟨"mystery_tool", "{}"⟩⟩ rfl rfl

theorem handle_append (env : ToolEnv Args PState) (mapping : NameMapping) :
    ∀ (l₁ l₂ : List ToolCall) (pst : PState),
    handle_tool_calls env mapping pst (l₁ ++ l₂) =
      ((handle_tool_calls env mapping
          (handle_tool_calls env mapping pst l₁).1 l₂).1,
       (handle_tool_calls env mapping pst l₁).2 ++
         (handle_tool_calls env mapping
           (handle_tool_calls env mapping pst l₁).1 l₂).2) := by
  intro l₁
  induction l₁ with
  | nil => intro l₂ pst; simp [handle_tool_calls]
  | cons tc rest ih => intro l₂ pst; simp [handle_tool_calls, ih]

theorem appendToolResults_eq (messages : List Message) (rs : List ToolResponse) :
    appendToolResults messages rs =
      messages ++ rs.map (fun r =>
        { role := "tool", content := r.output
        , tool_calls := none, tool_call_id := some r.tool_call_id }) := by
  unfold appendToolResults
  rcases rs with _ | ⟨r, rest⟩
  · simp
  · rfl

/-- C4: a batch of tool calls from one model turn is dispatched
sequentially in list order (the provider sees the prefix's final state
before the suffix runs) and each call is independently error-isolated:
the result list has exactly one entry per call, in order, tagged with the
originating call's id; unknown names, argument-parse failures and
provider exceptions each contribute an `"Error: <m>"` output without
aborting the rest; and `LLMClient.invoke` then appends exactly one `tool`
message per result to the history, keyed by that result's call id. -/
theorem C4_sequential_isolated (env : ToolEnv Args PState) (mapping : NameMapping)
    (pst : PState) (calls : List ToolCall) (messages : List Message) :
    ((handle_tool_calls env mapping pst calls).2).length = calls.length
    ∧ (∀ i : Nat, (((handle_tool_calls env mapping pst calls).2)[i]?).map
        (fun r => r.tool_call_id) = (calls[i]?).map (fun c => c.id))
    ∧ (∀ l₁ l₂, calls = l₁ ++ l₂ →
        handle_tool_calls env mapping pst calls =
          ((handle_tool_calls env mapping
              (handle_tool_calls env mapping pst l₁).1 l₂).1,
           (handle_tool_calls env mapping pst l₁).2 ++
             (handle_tool_calls env mapping
               (handle_tool_calls env mapping pst l₁).1 l₂).2))
    ∧ (∀ (p : PState) (tc : ToolCall), mapping tc.function.name = none →
        (handleToolCall env mapping p tc).2 =
          { tool_call_id := tc.id
          , output := "Error: " ++ ("Unknown tool: " ++ tc.function.name) })
    ∧ (∀ (p : PState) (tc : ToolCall) (name m : String),
        mapping tc.function.name = some name → name ≠ "" →
        env.jsonLoads tc.function.arguments = .error m →
        (handleToolCall env mapping p tc).2 =
          { tool_call_id := tc.id, output := "Error: " ++ m })
    ∧ (∀ (p p' : PState) (tc : ToolCall) (name m : String) (args : Args),
        mapping tc.function.name = some name → name ≠ "" →
        env.jsonLoads tc.function.arguments = .ok args →
        env.callTool p name args = (p', .error m) →
        (handleToolCall env mapping p tc).2 =
          { tool_call_id := tc.id, output := "Error: " ++ m })
    ∧ appendToolResults messages ((handle_tool_calls env mapping pst calls).2) =
        messages ++ ((handle_tool_calls env mapping pst calls).2).map (fun r =>
          { role := "tool", content := r.output
          , tool_calls := none, tool_call_id := some r.tool_call_id }) := by
  refine ⟨handle_length env mapping calls pst,
    fun i => handle_ids env mapping calls pst i,
    fun l₁ l₂ hsplit => by rw [hsplit]; exact handle_append env mapping l₁ l₂ pst,
    fun p tc hm => congrArg Prod.snd (handleToolCall_unknown env mapping p tc hm),
    fun p tc name m hm hne hj =>
      congrArg Prod.snd (handleToolCall_parse_error env mapping p tc hm hne hj),
    fun p p' tc name m args hm hne hj hc =>
      congrArg Prod.snd (handleToolCall_provider_error env mapping p p' tc hm hne hj hc),
    appendToolResults_eq messages _⟩

/-- A concrete environment for exercising the tool invoker: JSON parsing
fails exactly on the text `"not json"`, and the provider counts its calls
in `PState := Nat` and raises exactly for the tool `"Boom Tool"`. -/
def envW : ToolEnv String Nat :=
  { jsonLoads := fun s =>
      if s = "not json" then .error "Expecting value: line 1 column 1 (char 0)"
      else .ok s
  , callTool := fun p n a =>
      if n = "Boom Tool" then (p + 1, .error "boom")
      else (p + 1, .ok (.str ("res " ++ a))) }

/-- A concrete two-entry name mapping for the witnesses. -/
def mapW : NameMapping :=
  mapInsert (mapInsert emptyMapping "good_tool" "Good Tool") "boom_tool" "Boom Tool"

/-- A concrete four-call batch: one success, one unknown name, one
argument-parse failure, one provider exception. -/
def callsW : List ToolCall :=
  [⟨"a", ⟨"good_tool", "{}"⟩⟩, ⟨"b", ⟨"missing", "{}"⟩⟩,
   ⟨"c", ⟨"good_tool", "not json"⟩⟩, ⟨"d", ⟨"boom_tool", "{}"⟩⟩]

/-- Witness for C4 on the concrete batch `callsW`. -/
theorem C4_sequential_isolated_witness :
    ((handle_tool_calls envW mapW 0 callsW).2).length = callsW.length
    ∧ (((handle_tool_calls envW mapW 0 callsW).2)[1]?).map
        (fun r => r.tool_call_id) = some "b"
    ∧ handle_tool_calls envW mapW 0 callsW =
        ((handle_tool_calls envW mapW
            (handle_tool_calls envW mapW 0 (callsW.take 2)).1 (callsW.drop 2)).1,
         (handle_tool_calls envW mapW 0 (callsW.take 2)).2 ++
           (handle_tool_calls envW mapW
             (handle_tool_calls envW mapW 0 (callsW.take 2)).1 (callsW.drop 2)).2)
    ∧ (handleToolCall envW mapW 0 ⟨"b", ⟨"missing", "{}"⟩⟩).2 =
        { tool_call_id := "b", output := "Error: " ++ ("Unknown tool: " ++ "missing") }
    ∧ (handleToolCall envW mapW 0 ⟨"c", ⟨"good_tool", "not json"⟩⟩).2 =
        { tool_call_id := "c"
        , output := "Error: " ++ "Expecting value: line 1 column 1 (char 0)" }
    ∧ (handleToolCall envW mapW 0 ⟨"d", ⟨"boom_tool", "{}"⟩⟩).2 =
        { tool_call_id := "d", output := "Error: " ++ "boom" }
    ∧ appendToolResults [] ((handle_tool_calls envW mapW 0 callsW).2) =
        [] ++ ((handle_tool_calls envW mapW 0 callsW).2).map (fun r =>
          { role := "tool", content := r.output
          , tool_calls := none, tool_call_id := some r.tool_call_id }) := by
  have h := C4_sequential_isolated envW mapW 0 callsW []
  refine ⟨h.1, ?_, h.2.2.1 (callsW.take 2) (callsW.drop 2)
      (List.take_append_drop 2 callsW).symm,
    h.2.2.2.1 0 ⟨"b", ⟨"missing", "{}"⟩⟩ rfl,
    h.2.2.2.2.1 0 ⟨"c", ⟨"good_tool", "not json"⟩⟩ "Good Tool"
      "Expecting value: line 1 column 1 (char 0)" rfl (by decide) rfl,
    h.2.2.2.2.2.1 0 1 ⟨"d", ⟨"boom_tool", "{}"⟩⟩ "Boom Tool" "boom" "{}"
      rfl (by decide) rfl rfl,
    h.2.2.2.2.2.2⟩
  rw [h.2.1 1]
  rfl

/-! ### Response normalization -/

/-- C7: for a completion with a first choice, normalization succeeds and
the normalized response has `is_tool_call` true exactly when the first
choice's finish reason is `"tool_calls"` (hence false for `"stop"`
whatever the message content is), and `content` equal to the message's
text when that is non-null and `""` otherwise — `content` is a `String`,
never null. -/
theorem C7_normalizer (completion : Completion) (choice : Choice)
    (rest : List Choice) (hch : completion.choices = choice :: rest) :
    ∃ resp, mkLLMResponse completion = .ok resp
      ∧ (resp.is_tool_call = true ↔ choice.finish_reason = "tool_calls")
      ∧ (choice.finish_reason = "stop" → resp.is_tool_call = false)
      ∧ (∀ s, choice.message.content = some s → resp.content = s)
      ∧ (choice.message.content = none → resp.content = "") := by
  refine ⟨{ stop_reason := choice.finish_reason
          , is_tool_call := choice.finish_reason == "tool_calls"
          , content := match choice.message.content with
                       | some c => c
                       | none => ""
          , tool_calls := match choice.message.tool_calls with
                          | some v => v
                          | none => none },
    by unfold mkLLMResponse; rw [hch], ?_, ?_, ?_, ?_⟩
  · exact beq_iff_eq ..
  · intro hstop; simp [hstop]
  · intro s hs; simp [hs]
  · intro hn; simp [hn]

/-- Witness for C7: a concrete tool-call completion with null content
normalizes to `is_tool_call = true` and `content = ""`; a concrete stop
completion normalizes to `is_tool_call = false`. -/
theorem C7_normalizer_witness :
    (∃ resp, mkLLMResponse
        { choices := [{ message := { content := none
                                   , tool_calls := some (some [⟨"id1", ⟨"t", "{}"⟩⟩]) }
                      , finish_reason := "tool_calls" }] } = .ok resp
      ∧ resp.is_tool_call = true ∧ resp.content = "")
    ∧ (∃ resp, mkLLMResponse
        { choices := [{ message := { content := some "sure thing"
                                   , tool_calls := none }
                      , finish_reason := "stop" }] } = .ok resp
      ∧ resp.is_tool_call = false ∧ resp.content = "sure thing") := by
  constructor
  · obtain ⟨resp, hok, hiff, _, _, hnone⟩ := C7_normalizer
      { choices := [{ message := { content := none
                                 , tool_calls := some (some [⟨"id1", ⟨"t", "{}"⟩⟩]) }
                    , finish_reason := "tool_calls" }] } _ _ rfl
    exact ⟨resp, hok, hiff.mpr rfl, hnone rfl⟩
  · obtain ⟨resp, hok, _, hstop, hsome, _⟩ := C7_normalizer
      { choices := [{ message := { content := some "sure thing"
                                 , tool_calls := none }
                    , finish_reason := "stop" }] } _ _ rfl
    exact ⟨resp, hok, hstop rfl, hsome "sure thing" rfl⟩

/-- C8 counterexample: the claim requires the normalized `toolCalls` to
be an empty sequence — "not null/None" — when the message carries no
tool-call list, but `llm_client.py:39` stores `None` in that case: on a
completion whose message lacks the attribute the normalized field is
`none`, and `none ≠ some []`. -/
theorem C8_toolcalls_counterexample :
    mkLLMResponse { choices := [{ message := { content := some "done"
                                             , tool_calls := none }
                                , finish_reason := "stop" }] } =
      .ok { content := "done", tool_calls := none
          , stop_reason := "stop", is_tool_call := false }
    ∧ (none : Option (List ToolCall)) ≠ some [] := by
  exact ⟨rfl, by simp⟩

/-- C8 (amended): the normalized `toolCalls` equals the message's
tool-call list when the message carries one; when the message lacks the
attribute, or the attribute is null, the normalized field is `None`
(null) — not an empty sequence. -/
theorem C8_toolcalls_amended (completion : Completion) (choice : Choice)
    (rest : List Choice) (hch : completion.choices = choice :: rest) :
    ∃ resp, mkLLMResponse completion = .ok resp
      ∧ (∀ l, choice.message.tool_calls = some (some l) → resp.tool_calls = some l)
      ∧ ((choice.message.tool_calls = none ∨ choice.message.tool_calls = some none) →
          resp.tool_calls = none) := by
  refine ⟨{ stop_reason := choice.finish_reason
          , is_tool_call := choice.finish_reason == "tool_calls"
          , content := match choice.message.content with
                       | some c => c
                       | none => ""
          , tool_calls := match choice.message.tool_calls with
                          | some v => v
                          | none => none },
    by unfold mkLLMResponse; rw [hch], ?_, ?_⟩
  · intro l hl; simp [hl]
  · rintro (hn | hn) <;> simp [hn]

/-- Witness for the amended C8: a message carrying the attribute with a
one-call list, and a message lacking it. -/
theorem C8_toolcalls_amended_witness :
    (∃ resp, mkLLMResponse
        { choices := [{ message := { content := none
                                   , tool_calls := some (some [⟨"idw", ⟨"w", "{}"⟩⟩]) }
                      , finish_reason := "tool_calls" }] } = .ok resp
      ∧ resp.tool_calls = some [⟨"idw", ⟨"w", "{}"⟩⟩])
    ∧ (∃ resp, mkLLMResponse
        { choices := [{ message := { content := some "done", tool_calls := none }
                      , finish_reason := "stop" }] } = .ok resp
      ∧ resp.tool_calls = none) := by
  constructor
  · obtain ⟨resp, hok, hsome, _⟩ := C8_toolcalls_amended
      { choices := [{ message := { content := none
                                 , tool_calls := some (some [⟨"idw", ⟨"w", "{}"⟩⟩]) }
                    , finish_reason := "tool_calls" }] } _ _ rfl
    exact ⟨resp, hok, hsome _ rfl⟩
  · obtain ⟨resp, hok, _, hnone⟩ := C8_toolcalls_amended
      { choices := [{ message := { content := some "done", tool_calls := none }
                    , finish_reason := "stop" }] } _ _ rfl
    exact ⟨resp, hok, hnone (Or.inl rfl)⟩

/-! ### The message-processing loop -/

theorem invoke_error_cases {messages : List Message} {rs : List ToolResponse}
    {completion : Except String Completion} {m : String}
    (h : (invoke messages rs completion).2 = .error m) :
    completion = .error m ∨ ∃ c, completion = .ok c ∧ mkLLMResponse c = .error m := by
  unfold invoke at h
  rcases completion with m' | c
  · left
    obtain rfl : m' = m := by injection h
    rfl
  · right
    refine ⟨c, rfl, ?_⟩
    dsimp only at h
    rcases hr : mkLLMResponse c with m' | resp <;> rw [hr] at h <;> dsimp only at h
    · obtain rfl : m' = m := by injection h
      rfl
    · exact absurd h (by simp)

theorem invoke_ok_cases {messages : List Message} {rs : List ToolResponse}
    {completion : Except String Completion} {resp : LLMResponse}
    (h : (invoke messages rs completion).2 = .ok resp) :
    ∃ c, completion = .ok c ∧ mkLLMResponse c = .ok resp := by
  unfold invoke at h
  rcases completion with m' | c
  · exact absurd h (by simp)
  · refine ⟨c, rfl, ?_⟩
    dsimp only at h
    rcases hr : mkLLMResponse c with m' | resp' <;> rw [hr] at h <;> dsimp only at h
    · exact absurd h (by simp)
    · obtain rfl : resp' = resp := by injection h
      rfl

theorem process_loop_shape (env : ToolEnv Args PState) (mapping : NameMapping) :
    ∀ (oracle : List (Except String Completion)) (pst : PState)
      (messages : List Message) (resp : LLMResponse) (s : String),
    process_message_loop env mapping oracle pst messages resp = some s →
    (∃ m, s = "Error processing message: " ++ m
        ∧ (Except.error m ∈ oracle ∨ ∃ c, Except.ok c ∈ oracle ∧ mkLLMResponse c = .error m))
    ∨ (∃ r : LLMResponse, s = r.content
        ∧ (r.is_tool_call = false ∨ toolCallsFalsy r.tool_calls = true)
        ∧ (r = resp ∨ ∃ c, Except.ok c ∈ oracle ∧ mkLLMResponse c = .ok r)) := by
  intro oracle
  induction oracle with
  | nil =>
    intro pst messages resp s h
    simp only [process_message_loop] at h
    by_cases hc : (resp.is_tool_call && !toolCallsFalsy resp.tool_calls) = true
    · rw [if_pos hc] at h
      exact absurd h (by simp)
    · rw [if_neg hc] at h
      obtain rfl : resp.content = s := by injection h
      right
      refine ⟨resp, rfl, ?_, Or.inl rfl⟩
      cases ha : resp.is_tool_call
      · exact Or.inl rfl
      · cases hb : toolCallsFalsy resp.tool_calls
        · exact absurd (by rw [ha, hb]; rfl) hc
        · exact Or.inr rfl
  | cons completion rest ih =>
    intro pst messages resp s h
    simp only [process_message_loop] at h
    by_cases h1 : resp.is_tool_call = true
    · rw [if_pos h1] at h
      by_cases h2 : toolCallsFalsy resp.tool_calls = true
      · rw [if_pos h2] at h
        obtain rfl : resp.content = s := by injection h
        exact Or.inr ⟨resp, rfl, Or.inr h2, Or.inl rfl⟩
      · rw [if_neg h2] at h
        rcases hr : (invoke messages
            (handle_tool_calls env mapping pst (resp.tool_calls.getD [])).2
            completion).2 with m | resp' <;> rw [hr] at h
        · obtain rfl : "Error processing message: " ++ m = s := by injection h
          left
          refine ⟨m, rfl, ?_⟩
          rcases invoke_error_cases hr with rfl | ⟨c, rfl, hc⟩
          · exact Or.inl (List.mem_cons_self ..)
          · exact Or.inr ⟨c, List.mem_cons_self .., hc⟩
        · rcases ih _ _ _ _ h with ⟨m, rfl, hm⟩ | ⟨r, rfl, hexit, hsrc⟩
          · left
            refine ⟨m, rfl, ?_⟩
            rcases hm with hm | ⟨c, hcm, hc⟩
            · exact Or.inl (List.mem_cons_of_mem _ hm)
            · exact Or.inr ⟨c, List.mem_cons_of_mem _ hcm, hc⟩
          · right
            refine ⟨r, rfl, hexit, Or.inr ?_⟩
            rcases hsrc with rfl | ⟨c, hcm, hc⟩
            · obtain ⟨c, rfl, hc⟩ := invoke_ok_cases hr
              exact ⟨c, List.mem_cons_self .., hc⟩
            · exact ⟨c, List.mem_cons_of_mem _ hcm, hc⟩
    · rw [if_neg h1] at h
      obtain rfl : resp.content = s := by injection h
      right
      exact ⟨resp, rfl, Or.inl (Bool.not_eq_true _ ▸ h1), Or.inl rfl⟩

/-- A completion whose single choice finishes with `"tool_calls"` but
whose message carries a null tool-call list and the text `"hi"`:
`process_message` exits through the `if not response.tool_calls: break`
path (bridge.py:137-138). -/
def cToolNoCalls : Completion :=
  { choices := [{ message := { content := some "hi", tool_calls := some none }
                , finish_reason := "tool_calls" }] }

/-- A completion whose single choice finishes with `"stop"` and carries
the text `"done"`. -/
def cStopDone : Completion :=
  { choices := [{ message := { content := some "done", tool_calls := none }
                , finish_reason := "stop" }] }

set_option maxRecDepth 4096 in
/-- C2 counterexample: a run in which nothing raises — the single oracle
element is a well-formed completion — yet the model's only response is a
tool-call response (`finish_reason = "tool_calls"` with a null tool-call
list). `process_message` returns its content `"hi"` through the
break-on-empty-tool-calls path, so the returned string is not the content
of any non-tool-call response and not an error string either, refuting
the claim's dichotomy. -/
theorem C2_counterexample :
    process_message envW emptyMapping [Except.ok cToolNoCalls] 0 [] "q" = some "hi"
    ∧ mkLLMResponse cToolNoCalls =
        .ok { content := "hi", tool_calls := none
            , stop_reason := "tool_calls", is_tool_call := true }
    ∧ ("hi" : String).startsWith "Error processing message: " = false := by
  exact ⟨rfl, rfl, by decide⟩

/-- C2 (amended): whenever `process_message` returns a string, that
string is either the top-level error form
`"Error processing message: <m>"` for an exception `m` arising from a
model invocation during the run (the endpoint raising, or normalization
of a choiceless completion failing), or the content of the last model
response — a response that either is not a tool-call response or carries
an empty or null tool-call list (the claim as written admits only the
non-tool-call case). Nothing propagates past the public API. -/
theorem C2_amended (env : ToolEnv Args PState) (mapping : NameMapping)
    (oracle : List (Except String Completion)) (pst : PState)
    (messages : List Message) (message : String) (s : String)
    (h : process_message env mapping oracle pst messages message = some s) :
    (∃ m, s = "Error processing message: " ++ m
        ∧ (Except.error m ∈ oracle ∨ ∃ c, Except.ok c ∈ oracle ∧ mkLLMResponse c = .error m))
    ∨ (∃ r : LLMResponse, s = r.content
        ∧ (r.is_tool_call = false ∨ toolCallsFalsy r.tool_calls = true)
        ∧ ∃ c, Except.ok c ∈ oracle ∧ mkLLMResponse c = .ok r) := by
  unfold process_message at h
  rcases oracle with _ | ⟨completion, rest⟩
  · exact absurd h (by simp)
  · dsimp only at h
    rcases hr : (invoke (messages ++
        [{ role := "user", content := message
         , tool_calls := none, tool_call_id := none }]) [] completion).2
      with m | resp <;> rw [hr] at h <;> dsimp only at h
    · obtain rfl : "Error processing message: " ++ m = s := by injection h
      left
      refine ⟨m, rfl, ?_⟩
      rcases invoke_error_cases hr with rfl | ⟨c, rfl, hc⟩
      · exact Or.inl (List.mem_cons_self ..)
      · exact Or.inr ⟨c, List.mem_cons_self .., hc⟩
    · rcases process_loop_shape env mapping rest _ _ _ _ h with
        ⟨m, rfl, hm⟩ | ⟨r, rfl, hexit, hsrc⟩
      · left
        refine ⟨m, rfl, ?_⟩
        rcases hm with hm | ⟨c, hcm, hc⟩
        · exact Or.inl (List.mem_cons_of_mem _ hm)
        · exact Or.inr ⟨c, List.mem_cons_of_mem _ hcm, hc⟩
      · right
        refine ⟨r, rfl, hexit, ?_⟩
        rcases hsrc with rfl | ⟨c, hcm, hc⟩
        · obtain ⟨c, rfl, hc⟩ := invoke_ok_cases hr
          exact ⟨c, List.mem_cons_self .., hc⟩
        · exact ⟨c, List.mem_cons_of_mem _ hcm, hc⟩

/-- Witness for the amended C2 on a concrete one-completion run ending
with a `"stop"` response whose content is `"done"`. -/
theorem C2_amended_witness :
    (∃ m, ("done" : String) = "Error processing message: " ++ m
        ∧ (Except.error m ∈ ([Except.ok cStopDone] : List (Except String Completion))
           ∨ ∃ c, Except.ok c ∈ ([Except.ok cStopDone] : List (Except String Completion))
               ∧ mkLLMResponse c = .error m))
    ∨ (∃ r : LLMResponse, ("done" : String) = r.content
        ∧ (r.is_tool_call = false ∨ toolCallsFalsy r.tool_calls = true)
        ∧ ∃ c, Except.ok c ∈ ([Except.ok cStopDone] : List (Except String Completion))
            ∧ mkLLMResponse c = .ok r) := by
  exact C2_amended envW emptyMapping [Except.ok cStopDone] 0 [] "q" "done" rfl

end MCPBridge
